import Mathlib

/-!
Verification model of the pg_semantic_cache repository.

The repository ships two demo scripts (`examples/demo/simple_demo.py` and
`examples/demo/simple_demo_openai.py`) that drive a semantic-cache engine
exposed as four SQL-level operations (`cache_query`, `get_cached_result`,
`cache_stats`, `clear_cache`).  The engine itself is not part of the
checked-out sources, so it is modelled here from the design document
(`spec.md`); the demo scripts are translated directly from their Python
source.

Similarity encoding.  The engine compares embedding vectors by cosine
similarity `dot v w / (‖v‖ ‖w‖)`, an irrational quantity in general.  All
decisions the engine makes are order comparisons on similarities, so the
model represents a similarity exactly by its signed square
`simSq q v = sign (dot q v) * (dot q v)^2 / (‖q‖^2 ‖v‖^2) ∈ ℚ`,
the image of the cosine similarity under the strictly increasing bijection
`x ↦ sign x * x^2` of `[-1, 1]` onto itself.  Thresholds `t ∈ [0, 1]` are
compared through the same map (`t ↦ t^2`), so every hit/miss decision, every
maximum and every tie agrees with the cosine-similarity original; a
similarity of `1` (exact self match) and a similarity of `0` (orthogonal or
empty) are fixed points of the encoding.
-/

namespace SemanticCache

/-- An embedding vector: an ordered sequence of (exact) numeric components.
The demos obtain these from an embedding provider. -/
abbrev Vec := List ℚ

/-- Dot product of two vectors (componentwise product, summed). -/
def dot (v w : Vec) : ℚ := (List.zipWith (· * ·) v w).sum

/-- Squared Euclidean norm of a vector. -/
def normSq (v : Vec) : ℚ := dot v v

/-- Cosine similarity of `q` and `v`, represented exactly by its signed
square: `sign (dot q v) * (dot q v)^2 / (normSq q * normSq v)`.  Division by
zero (a zero vector) yields `0`, matching the engine treating an undefined
cosine as no match. -/
def simSq (q v : Vec) : ℚ :=
  let d := dot q v
  (if d < 0 then -1 else 1) * (d * d) / (normSq q * normSq v)

/-- A cached item, as owned by the EntryStore: unique id, owning embedding,
the query text it came from, the opaque result payload, creation time, an
optional absolute expiration time (`none` = never expires), tags for group
invalidation, and a hit counter. -/
structure CacheEntry where
  id : ℕ
  embedding : Vec
  queryText : String
  payload : String
  createdAt : ℕ
  expiresAt : Option ℕ
  tags : List String
  hitCount : ℕ
  deriving Repr, DecidableEq

/-- Liveness of an entry at time `now`: live when it never expires or its
expiration time is still in the future (the demo SQL keeps entries with
`expires_at IS NULL OR expires_at > NOW()`). -/
def isLive (now : ℕ) (e : CacheEntry) : Bool :=
  match e.expiresAt with
  | none => true
  | some t => now < t

/-- Result of a similarity lookup: `hit` carries the entry id, the
similarity score and the payload; `miss` carries the best similarity
observed (0 if the index is empty). -/
inductive LookupResult where
  | hit (entryId : ℕ) (similarity : ℚ) (payload : String)
  | miss (bestSimilarity : ℚ)
  deriving Repr, DecidableEq

/-- Error taxonomy of the engine: dimension mismatch, invalid argument
(threshold out of range), storage failure (failed index insert). -/
inductive CacheError where
  | dimensionMismatch
  | invalidArgument
  | storageFailure
  deriving Repr, DecidableEq

/-- Whole-engine state: the configured vector dimension, the EntryStore
(most recent entry first), the VectorIndex (id and vector, most recent
first), the id allocator and the StatsAccumulator counters. -/
structure EngineState where
  dimension : ℕ
  store : List CacheEntry
  index : List (ℕ × Vec)
  nextId : ℕ
  totalEntries : ℕ
  totalHits : ℕ
  totalMisses : ℕ
  deriving Repr, DecidableEq

/-- A fresh engine configured for dimension `d`. -/
def mkEngine (d : ℕ) : EngineState :=
  ⟨d, [], [], 0, 0, 0, 0⟩

/-- EntryStore resolution of an id to its entry. -/
def findEntry (s : EngineState) (id : ℕ) : Option CacheEntry :=
  s.store.find? (fun e => e.id = id)

/-- Remove an entry by id from the store (rollback / invalidation step). -/
def removeFromStore (store : List CacheEntry) (id : ℕ) : List CacheEntry :=
  store.filter (fun e => e.id ≠ id)

/-- Remove an id from the vector index. -/
def removeFromIndex (index : List (ℕ × Vec)) (id : ℕ) : List (ℕ × Vec) :=
  index.filter (fun p => p.1 ≠ id)

/-- Modelled from the spec: `CacheEngine.write` (`cache_query` at the
interface); the engine code is absent from the sources.  Validates the
dimension, constructs a `CacheEntry` whose expiration is
`now + ttl_seconds` (absent when `ttl_seconds ≤ 0`), inserts into
EntryStore then VectorIndex — when the index insert fails (`indexFault`),
the store insert is rolled back and `StorageFailure` is surfaced — and
increments `total_entries`.  Returns the outcome together with the state
visible afterwards. -/
def write (s : EngineState) (queryText : String) (emb : Vec) (payload : String)
    (ttl : Int) (tags : List String) (now : ℕ) (indexFault : Bool) :
    Except CacheError ℕ × EngineState :=
  if emb.length ≠ s.dimension then
    (.error .dimensionMismatch, s)
  else
    let id := s.nextId
    let entry : CacheEntry :=
      ⟨id, emb, queryText, payload, now,
        if ttl ≤ 0 then none else some (now + ttl.toNat), tags, 0⟩
    let stored := entry :: s.store
    if indexFault then
      (.error .storageFailure, { s with store := removeFromStore stored id })
    else
      (.ok id,
        { s with
          store := stored
          index := (id, emb) :: s.index
          nextId := id + 1
          totalEntries := s.totalEntries + 1 })

/-- Candidate set of a lookup: the whole VectorIndex, pre-filtered by tag
when a tag filter is supplied (an id whose entry cannot be resolved never
passes the filter). -/
def candidates (s : EngineState) (tagFilter : Option String) : List (ℕ × Vec) :=
  match tagFilter with
  | none => s.index
  | some tag =>
      s.index.filter (fun p =>
        match findEntry s p.1 with
        | some e => e.tags.contains tag
        | none => false)

/-- Top-1 of the index for a query: the candidate of maximal similarity,
ties broken in favour of the most recently written entry (candidates are
listed most recent first, and the earlier of two tied candidates wins). -/
def best1 (q : Vec) : List (ℕ × Vec) → Option (ℕ × ℚ)
  | [] => none
  | (id, v) :: rest =>
      match best1 q rest with
      | none => some (id, simSq q v)
      | some (id2, b) =>
          if simSq q v ≥ b then some (id, simSq q v) else some (id2, b)

/-- Increment the hit counter of entry `id` in the store. -/
def bumpHit (store : List CacheEntry) (id : ℕ) : List CacheEntry :=
  store.map (fun e => if e.id = id then { e with hitCount := e.hitCount + 1 } else e)

/-- Modelled from the spec: `CacheEngine.lookup` (`get_cached_result` at the
interface); the engine code is absent from the sources.  Validates the
dimension and the threshold (must lie in `[0, 1]`); queries the VectorIndex
for the top-1 candidate (optionally tag-filtered); resolves the candidate
through the store's liveness check at `now`; if live and
`similarity ≥ threshold` (inclusive), bumps the hit counters and returns a
Hit, otherwise returns a Miss carrying the best similarity observed (0 if
the index is empty).  Thresholds are compared through the signed-square
encoding, i.e. against `threshold * threshold`. -/
def lookup (s : EngineState) (q : Vec) (threshold : ℚ) (tagFilter : Option String)
    (now : ℕ) : Except CacheError LookupResult × EngineState :=
  if q.length ≠ s.dimension then
    (.error .dimensionMismatch, s)
  else if threshold < 0 ∨ 1 < threshold then
    (.error .invalidArgument, s)
  else
    match best1 q (candidates s tagFilter) with
    | none => (.ok (.miss 0), { s with totalMisses := s.totalMisses + 1 })
    | some (id, b) =>
        match findEntry s id with
        | some e =>
            if isLive now e ∧ b ≥ threshold * threshold then
              (.ok (.hit id b e.payload),
                { s with store := bumpHit s.store id, totalHits := s.totalHits + 1 })
            else
              (.ok (.miss b), { s with totalMisses := s.totalMisses + 1 })
        | none => (.ok (.miss b), { s with totalMisses := s.totalMisses + 1 })

/-- Removal of every entry matching a condition from both EntryStore and
VectorIndex, decrementing `total_entries` by the count removed; shared core
of tag invalidation and the TTL reaper. -/
def removeWhere (s : EngineState) (cond : CacheEntry → Bool) : ℕ × EngineState :=
  let doomed := (s.store.filter cond).map (fun e => e.id)
  (doomed.length,
    { s with
      store := s.store.filter (fun e => !(cond e))
      index := s.index.filter (fun p => p.1 ∉ doomed)
      totalEntries := s.totalEntries - doomed.length })

/-- Modelled from the spec: `CacheEngine.invalidate_tag`; the engine code is
absent from the sources.  Removes every entry carrying the tag from both
EntryStore and VectorIndex, decrements `total_entries` by the count removed
and leaves the hit/miss history untouched. -/
def invalidateTag (s : EngineState) (tag : String) : ℕ × EngineState :=
  removeWhere s (fun e => e.tags.contains tag)

/-- Modelled from the spec: `CacheEngine.clear_all` (`clear_cache` at the
interface); the engine code is absent from the sources.  Removes every
entry from both structures, resets all counters and returns the number
removed. -/
def clearAll (s : EngineState) : ℕ × EngineState :=
  (s.store.length,
    { s with store := [], index := [], totalEntries := 0, totalHits := 0,
             totalMisses := 0 })

/-- Modelled from the spec: a TTLReaper sweep at time `now`; the engine code
is absent from the sources.  Removes every expired entry from both
EntryStore and VectorIndex and decrements `total_entries` accordingly. -/
def reap (s : EngineState) (now : ℕ) : EngineState :=
  (removeWhere s (fun e => !(isLive now e))).2

/-- Aggregate statistics snapshot: entry, hit and miss counters and the
derived hit rate `hits / (hits + misses)` (0 before any lookup). -/
structure StatsSnapshot where
  totalEntries : ℕ
  totalHits : ℕ
  totalMisses : ℕ
  hitRate : ℚ
  deriving Repr, DecidableEq

/-- Modelled from the spec: `CacheEngine.stats` (`cache_stats` at the
interface); the engine code is absent from the sources. -/
def stats (s : EngineState) : StatsSnapshot :=
  ⟨s.totalEntries, s.totalHits, s.totalMisses,
    if s.totalHits + s.totalMisses = 0 then 0
    else (s.totalHits : ℚ) / ((s.totalHits : ℚ) + (s.totalMisses : ℚ))⟩

/-- States reachable from a freshly configured engine by any sequence of
writes (including ones whose index insert fails), lookups, tag
invalidations, full clears and reaper sweeps. -/
inductive Reachable : EngineState → Prop where
  | init (d : ℕ) : Reachable (mkEngine d)
  | write {s} (h : Reachable s) (q : String) (emb : Vec) (p : String)
      (ttl : Int) (tags : List String) (now : ℕ) (fault : Bool) :
      Reachable (write s q emb p ttl tags now fault).2
  | lookup {s} (h : Reachable s) (q : Vec) (t : ℚ) (tf : Option String) (now : ℕ) :
      Reachable (lookup s q t tf now).2
  | invalidateTag {s} (h : Reachable s) (tag : String) :
      Reachable (invalidateTag s tag).2
  | clearAll {s} (h : Reachable s) : Reachable (clearAll s).2
  | reap {s} (h : Reachable s) (now : ℕ) : Reachable (reap s now)

/-! Demo scripts.  Translated from `examples/demo/simple_demo.py` and
`examples/demo/simple_demo_openai.py`; the embedding provider and the LLM
are external collaborators, modelled as function parameters (the LLM
returning `none` models its call raising an exception). -/

/-- Text normalization performed by both demos before embedding:
`text.lower().strip()`. -/
def normalizeText (text : String) : String := text.toLower.trim

/-- Translated from both demos: `get_embedding` normalizes the text
(lowercase, strip surrounding whitespace) and sends the normalized text to
the embedding provider. -/
def get_embedding (provider : String → Vec) (text : String) : Vec :=
  provider (normalizeText text)

/-- Translated from both demos: `generate_answer` asks the LLM; when the
call raises (modelled by `none`) it returns the fallback string instead of
propagating the error. -/
def generate_answer (llm : String → Option String) (question : String) : String :=
  match llm question with
  | some a => a
  | none => "I don\x27t have a cached answer for: " ++ question

/-- Similarity threshold used by both demos (0.89). -/
def SIMILARITY_THRESHOLD : ℚ := 89 / 100

/-- Observable outcome of one iteration of a demo loop: the engine state
afterwards, the text sent to the embedding provider, whether the cache
reported `found`, the answer shown, and the arguments of the `cache_query`
call when one was made (query text, embedding, payload, ttl, tags). -/
structure DemoStep where
  state : EngineState
  sentToProvider : String
  found : Bool
  answer : String
  cachedWrite : Option (String × Vec × String × Int × List String)
  deriving Repr, DecidableEq

/-- Translated from the question-processing body of both demos'
`interactive_mode` loops: embed the question (normalized), call
`get_cached_result` with threshold 0.89 and no tag filter; on a hit show
the cached payload and write nothing; on a miss generate an answer (with
fallback) and cache it via `cache_query(question, embedding, answer, 3600,
[])` — the raw question text, not the normalized one.  A lookup error
aborts the iteration without writing. -/
def processQuestion (provider : String → Vec) (llm : String → Option String)
    (q : String) (s : EngineState) (now : ℕ) : DemoStep :=
  match lookup s (get_embedding provider q) SIMILARITY_THRESHOLD none now with
  | (.ok (.hit _ _ payload), s1) => ⟨s1, normalizeText q, true, payload, none⟩
  | (.ok (.miss _), s1) =>
      ⟨(write s1 q (get_embedding provider q) (generate_answer llm q)
          3600 [] now false).2,
        normalizeText q, false, generate_answer llm q,
        some (q, get_embedding provider q, generate_answer llm q, 3600, [])⟩
  | (.error _, s1) => ⟨s1, normalizeText q, false, "", none⟩

/-! Arithmetic groundwork: the dot product, norms and the signed-square
similarity encoding. -/

theorem dot_nil (w : Vec) : dot [] w = 0 := rfl

theorem dot_nil_right (v : Vec) : dot v [] = 0 := by
  cases v <;> rfl

theorem dot_cons (a b : ℚ) (v w : Vec) :
    dot (a :: v) (b :: w) = a * b + dot v w := by
  simp [dot, List.sum_cons]

theorem normSq_nonneg (v : Vec) : 0 ≤ normSq v := by
  induction v with
  | nil => simp [normSq, dot]
  | cons a v ih =>
      have h := dot_cons a a v v
      simp only [normSq] at *
      nlinarith [sq_nonneg a]

/-- Cauchy–Schwarz for the list dot product. -/
theorem dot_sq_le (v w : Vec) : dot v w * dot v w ≤ normSq v * normSq w := by
  induction v generalizing w with
  | nil => simp [dot, normSq]
  | cons a v ih =>
      cases w with
      | nil =>
          simp [dot_nil_right, normSq, dot]
      | cons b w =>
          have h := ih w
          have hA := normSq_nonneg v
          have hB := normSq_nonneg w
          rw [dot_cons] at *
          rw [show normSq (a :: v) = a * a + normSq v from dot_cons a a v v]
          rw [show normSq (b :: w) = b * b + normSq w from dot_cons b b w w]
          set S := dot v w with hS
          set A := normSq v with hA2
          set B := normSq w with hB2
          have hX : 0 ≤ a * a * B + A * (b * b) :=
            add_nonneg (mul_nonneg (mul_self_nonneg a) hB)
              (mul_nonneg hA (mul_self_nonneg b))
          have hsq : (2 * (a * b) * S) ^ 2 ≤ (a * a * B + A * (b * b)) ^ 2 := by
            nlinarith [sq_nonneg (a * a * B - A * (b * b)), h, sq_nonneg (a * b)]
          have key : 2 * (a * b) * S ≤ a * a * B + A * (b * b) := by
            nlinarith [hX, hsq]
          nlinarith [key, h]

/-- The similarity encoding never exceeds 1 (Cauchy–Schwarz). -/
theorem simSq_le_one (q v : Vec) : simSq q v ≤ 1 := by
  unfold simSq
  set d := dot q v with hd
  have hcs := dot_sq_le q v
  have hA := normSq_nonneg q
  have hB := normSq_nonneg v
  rcases eq_or_lt_of_le (mul_nonneg hA hB) with hz | hpos
  · simp [← hz]
  · rw [div_le_one hpos]
    rcases lt_or_le d 0 with hneg | hnn
    · rw [if_pos hneg]
      nlinarith
    · rw [if_neg (not_lt.mpr hnn)]
      nlinarith [hcs]

/-- Self-similarity of a vector with nonzero norm is exactly 1. -/
theorem simSq_self (v : Vec) (hv : normSq v ≠ 0) : simSq v v = 1 := by
  have hpos : 0 < normSq v := lt_of_le_of_ne (normSq_nonneg v) (Ne.symm hv)
  have hd : ¬ dot v v < 0 := not_lt.mpr (le_of_lt hpos)
  have hne : normSq v * normSq v ≠ 0 := mul_ne_zero hv hv
  show (if dot v v < 0 then (-1 : ℚ) else 1) * (dot v v * dot v v) /
      (normSq v * normSq v) = 1
  rw [if_neg hd, one_mul]
  exact div_self hne

/-! Characterization of the top-1 selection. -/

theorem best1_eq_none_iff (q : Vec) (l : List (ℕ × Vec)) :
    best1 q l = none ↔ l = [] := by
  cases l with
  | nil => simp [best1]
  | cons p rest =>
      obtain ⟨id, v⟩ := p
      simp only [best1]
      cases h : best1 q rest with
      | none => simp
      | some p2 =>
          obtain ⟨id2, b⟩ := p2
          by_cases hge : simSq q v ≥ b <;> simp [hge]

/-- The top-1 similarity is attained by some candidate. -/
theorem best1_mem (q : Vec) :
    ∀ (l : List (ℕ × Vec)) (id : ℕ) (b : ℚ),
      best1 q l = some (id, b) → ∃ v, (id, v) ∈ l ∧ simSq q v = b := by
  intro l
  induction l with
  | nil => intro id b h; simp [best1] at h
  | cons p rest ih =>
      obtain ⟨i, v⟩ := p
      intro id b h
      simp only [best1] at h
      cases hr : best1 q rest with
      | none =>
          rw [hr] at h
          have h2 : some (i, simSq q v) = some (id, b) := h
          simp only [Option.some.injEq, Prod.mk.injEq] at h2
          exact ⟨v, by simp [← h2.1], h2.2⟩
      | some p2 =>
          obtain ⟨i2, b2⟩ := p2
          rw [hr] at h
          have h2 : (if simSq q v ≥ b2 then some (i, simSq q v)
              else some (i2, b2)) = some (id, b) := h
          by_cases hge : simSq q v ≥ b2
          · rw [if_pos hge] at h2
            simp only [Option.some.injEq, Prod.mk.injEq] at h2
            exact ⟨v, by simp [← h2.1], h2.2⟩
          · rw [if_neg hge] at h2
            simp only [Option.some.injEq, Prod.mk.injEq] at h2
            obtain ⟨v2, hv2, hs2⟩ := ih i2 b2 hr
            exact ⟨v2, by simp [List.mem_cons, h2.1 ▸ hv2], h2.2 ▸ hs2⟩

/-- The top-1 similarity bounds every candidate's similarity. -/
theorem best1_ub (q : Vec) :
    ∀ (l : List (ℕ × Vec)) (id : ℕ) (b : ℚ),
      best1 q l = some (id, b) → ∀ p ∈ l, simSq q p.2 ≤ b := by
  intro l
  induction l with
  | nil => intro id b h; simp [best1] at h
  | cons p0 rest ih =>
      obtain ⟨i, v⟩ := p0
      intro id b h p hp
      simp only [best1] at h
      cases hr : best1 q rest with
      | none =>
          rw [hr] at h
          have h2 : some (i, simSq q v) = some (id, b) := h
          simp only [Option.some.injEq, Prod.mk.injEq] at h2
          have hrest : rest = [] := (best1_eq_none_iff q rest).mp hr
          subst hrest
          rcases List.mem_singleton.mp hp with rfl
          simp [h2.2]
      | some p2 =>
          obtain ⟨i2, b2⟩ := p2
          rw [hr] at h
          have h2 : (if simSq q v ≥ b2 then some (i, simSq q v)
              else some (i2, b2)) = some (id, b) := h
          rcases List.mem_cons.mp hp with rfl | hmem
          · by_cases hge : simSq q v ≥ b2
            · rw [if_pos hge] at h2
              simp only [Option.some.injEq, Prod.mk.injEq] at h2
              simp [h2.2]
            · rw [if_neg hge] at h2
              simp only [Option.some.injEq, Prod.mk.injEq] at h2
              exact le_of_lt (h2.2 ▸ lt_of_not_ge hge)
          · have hle := ih i2 b2 hr p hmem
            by_cases hge : simSq q v ≥ b2
            · rw [if_pos hge] at h2
              simp only [Option.some.injEq, Prod.mk.injEq] at h2
              exact h2.2 ▸ le_trans hle hge
            · rw [if_neg hge] at h2
              simp only [Option.some.injEq, Prod.mk.injEq] at h2
              exact h2.2 ▸ hle

/-- When the head candidate's similarity dominates the rest, the head wins
(the most recently written entry takes ties). -/
theorem best1_cons_top (q : Vec) (id : ℕ) (v : Vec) (rest : List (ℕ × Vec))
    (htop : ∀ p ∈ rest, simSq q p.2 ≤ simSq q v) :
    best1 q ((id, v) :: rest) = some (id, simSq q v) := by
  simp only [best1]
  cases hr : best1 q rest with
  | none => rfl
  | some p2 =>
      obtain ⟨i2, b2⟩ := p2
      obtain ⟨v2, hv2, hs2⟩ := best1_mem q rest i2 b2 hr
      have hle : b2 ≤ simSq q v := hs2 ▸ htop (i2, v2) hv2
      show (if simSq q v ≥ b2 then some (id, simSq q v)
        else some (i2, b2)) = some (id, simSq q v)
      rw [if_pos hle]

/-- Finding an entry at the head of a store resolves to that entry. -/
theorem find_cons_self (e : CacheEntry) (l : List CacheEntry) :
    (e :: l).find? (fun x => x.id = e.id) = some e := by
  simp [List.find?]

/-- A dimension-correct, fault-free write succeeds and conses the new entry
onto both structures. -/
theorem write_ok (s : EngineState) (text : String) (v : Vec) (pay : String)
    (ttl : Int) (tags : List String) (now : ℕ)
    (hdim : v.length = s.dimension) :
    write s text v pay ttl tags now false =
      (.ok s.nextId,
        { s with
          store := ⟨s.nextId, v, text, pay, now,
            if ttl ≤ 0 then none else some (now + ttl.toNat), tags, 0⟩ :: s.store
          index := (s.nextId, v) :: s.index
          nextId := s.nextId + 1
          totalEntries := s.totalEntries + 1 }) := by
  simp [write, hdim]

/-- A dimension-correct lookup with a threshold in `[0, 1]` reduces to the
candidate-selection core. -/
theorem lookup_eq_of_valid (s : EngineState) (q : Vec) (t : ℚ)
    (tf : Option String) (now : ℕ)
    (hdim : q.length = s.dimension) (h0 : 0 ≤ t) (h1 : t ≤ 1) :
    lookup s q t tf now =
      match best1 q (candidates s tf) with
      | none => (.ok (.miss 0), { s with totalMisses := s.totalMisses + 1 })
      | some (id, b) =>
          match findEntry s id with
          | some e =>
              if isLive now e ∧ b ≥ t * t then
                (.ok (.hit id b e.payload),
                  { s with store := bumpHit s.store id,
                           totalHits := s.totalHits + 1 })
              else
                (.ok (.miss b), { s with totalMisses := s.totalMisses + 1 })
          | none => (.ok (.miss b), { s with totalMisses := s.totalMisses + 1 }) := by
  have ht : ¬ (t < 0 ∨ 1 < t) := by
    rintro (hc | hc)
    · exact absurd h0 (not_le.mpr hc)
    · exact absurd h1 (not_le.mpr hc)
  unfold lookup
  rw [if_neg (not_not_intro hdim), if_neg ht]

/-! Claim C2. -/

/-- C2 (amended): for every vector `v` of the configured dimension with
nonzero norm, writing `v` and then looking it up with `threshold = 1.0`
before the entry expires yields a Hit on that same entry (the id the write
returned) with similarity exactly 1 in the exact-arithmetic model; the hit
decision is inclusive (`similarity ≥ threshold` — here the similarity
equals the threshold and still hits). -/
theorem write_then_self_lookup_hits
    (s : EngineState) (text pay : String) (v : Vec) (ttl : Int)
    (tags : List String) (now now2 : ℕ)
    (hdim : v.length = s.dimension) (hv : normSq v ≠ 0)
    (hlive : ttl ≤ 0 ∨ now2 < now + ttl.toNat) :
    (write s text v pay ttl tags now false).1 = .ok s.nextId ∧
    (lookup (write s text v pay ttl tags now false).2 v 1 none now2).1 =
      .ok (.hit s.nextId 1 pay) := by
  rw [write_ok s text v pay ttl tags now hdim]
  set entry : CacheEntry := ⟨s.nextId, v, text, pay, now,
    if ttl ≤ 0 then none else some (now + ttl.toNat), tags, 0⟩ with hentry
  set s2 : EngineState :=
    { s with store := entry :: s.store, index := (s.nextId, v) :: s.index,
             nextId := s.nextId + 1, totalEntries := s.totalEntries + 1 } with hs2
  refine ⟨rfl, ?_⟩
  have hdim2 : v.length = s2.dimension := hdim
  rw [lookup_eq_of_valid s2 v 1 none now2 hdim2 (by norm_num) (by norm_num)]
  have htop : ∀ p ∈ s.index, simSq v p.2 ≤ simSq v v :=
    fun p _ => le_of_le_of_eq (simSq_le_one v p.2) (simSq_self v hv).symm
  have hbest : best1 v (candidates s2 none) = some (s.nextId, 1) := by
    show best1 v ((s.nextId, v) :: s.index) = some (s.nextId, 1)
    rw [best1_cons_top v s.nextId v s.index htop, simSq_self v hv]
  have hfind : findEntry s2 s.nextId = some entry := by
    show (entry :: s.store).find? (fun x => x.id = s.nextId) = some entry
    exact find_cons_self entry s.store
  have hlive2 : isLive now2 entry = true := by
    by_cases httl : ttl ≤ 0
    · simp [isLive, hentry, httl]
    · have h2 : now2 < now + ttl.toNat := hlive.resolve_left httl
      simp [isLive, hentry, httl, h2]
  simp only [hbest, hfind]
  rw [if_pos ⟨hlive2, by norm_num⟩]

/-- C2 witness: dimension 2, vector `[3, 4]`, never-expiring entry,
looked up at a much later time: the self lookup at threshold 1 hits the
written entry with similarity exactly 1. -/
theorem write_then_self_lookup_hits_witness :
    ([3, 4] : Vec).length = (mkEngine 2).dimension ∧ normSq [3, 4] ≠ 0 ∧
    ((write (mkEngine 2) "t" [3, 4] "a" 0 [] 0 false).1 =
        .ok (mkEngine 2).nextId ∧
      (lookup (write (mkEngine 2) "t" [3, 4] "a" 0 [] 0 false).2
          [3, 4] 1 none 100).1 = .ok (.hit (mkEngine 2).nextId 1 "a")) :=
  ⟨rfl, by norm_num [normSq, dot],
    write_then_self_lookup_hits (mkEngine 2) "t" "a" [3, 4] 0 [] 0 100 rfl
      (by norm_num [normSq, dot]) (Or.inl (by norm_num))⟩

/-- C2 counterexample: the claim quantifies over every written vector, but
the all-zero vector of the correct dimension is accepted by `write` and its
own lookup at threshold 1 is a Miss with similarity 0 (an undefined cosine
is treated as no match), not a Hit with similarity 1. -/
theorem zero_vector_self_lookup_misses :
    (write (mkEngine 4) "q" [0, 0, 0, 0] "a" 3600 [] 0 false).1 = .ok 0 ∧
    (lookup (write (mkEngine 4) "q" [0, 0, 0, 0] "a" 3600 [] 0 false).2
        [0, 0, 0, 0] 1 none 1).1 = .ok (.miss 0) := by
  constructor
  · norm_num [write, mkEngine]
  · norm_num [lookup, write, mkEngine, candidates, best1, simSq, dot, normSq,
      findEntry, isLive, bumpHit, List.find?]

/-! Claim C3. -/

/-- C3: for every cache state, query embedding and pair of thresholds
`0 ≤ t1 < t2`, a lookup that is a Hit at threshold `t2` is also a Hit at
threshold `t1` — on the same entry with the same similarity: hits are
monotone decreasing in the threshold. -/
theorem lookup_hit_monotone_in_threshold
    (s : EngineState) (q : Vec) (tf : Option String) (now : ℕ)
    (t1 t2 : ℚ) (id : ℕ) (sim : ℚ) (pay : String)
    (h0 : 0 ≤ t1) (h12 : t1 < t2)
    (hhit : (lookup s q t2 tf now).1 = .ok (.hit id sim pay)) :
    (lookup s q t1 tf now).1 = .ok (.hit id sim pay) := by
  by_cases hdim : q.length = s.dimension
  case neg =>
    unfold lookup at hhit
    rw [if_pos hdim] at hhit
    simp at hhit
  by_cases ht2 : t2 < 0 ∨ 1 < t2
  case pos =>
    unfold lookup at hhit
    rw [if_neg (not_not_intro hdim), if_pos ht2] at hhit
    simp at hhit
  have ht2a : 0 ≤ t2 := le_of_not_lt (fun hc => ht2 (Or.inl hc))
  have ht2b : t2 ≤ 1 := le_of_not_lt (fun hc => ht2 (Or.inr hc))
  have ht1b : t1 ≤ 1 := le_of_lt (lt_of_lt_of_le h12 ht2b)
  rw [lookup_eq_of_valid s q t2 tf now hdim ht2a ht2b] at hhit
  rw [lookup_eq_of_valid s q t1 tf now hdim h0 ht1b]
  cases hb : best1 q (candidates s tf) with
  | none => simp only [hb] at hhit; simp at hhit
  | some p =>
      obtain ⟨cid, b⟩ := p
      simp only [hb] at hhit ⊢
      cases hf : findEntry s cid with
      | none => simp only [hf] at hhit; simp at hhit
      | some e =>
          simp only [hf] at hhit ⊢
          by_cases hcond : isLive now e = true ∧ b ≥ t2 * t2
          · rw [if_pos hcond] at hhit
            simp only [Except.ok.injEq, LookupResult.hit.injEq] at hhit
            have hsq : t1 * t1 ≤ t2 * t2 :=
              mul_le_mul (le_of_lt h12) (le_of_lt h12) h0 ht2a
            rw [if_pos ⟨hcond.1, le_trans hsq hcond.2⟩]
            simp [hhit.1, hhit.2.1, hhit.2.2]
          · rw [if_neg hcond] at hhit
            simp at hhit

/-- C3 witness: one never-expiring entry `[2]`; threshold 1 hits it with
similarity 1, so threshold 1/2 hits the same entry with the same
similarity. -/
theorem lookup_hit_monotone_in_threshold_witness :
    0 ≤ (1 / 2 : ℚ) ∧ (1 / 2 : ℚ) < 1 ∧
    (lookup (write (mkEngine 1) "q" [2] "a" 0 [] 0 false).2 [2] 1 none 0).1 =
      .ok (.hit 0 1 "a") ∧
    (lookup (write (mkEngine 1) "q" [2] "a" 0 [] 0 false).2 [2] (1 / 2) none 0).1 =
      .ok (.hit 0 1 "a") := by
  have hh : (lookup (write (mkEngine 1) "q" [2] "a" 0 [] 0 false).2
      [2] 1 none 0).1 = .ok (.hit 0 1 "a") := by
    norm_num [lookup, write, mkEngine, candidates, best1, simSq, dot, normSq,
      findEntry, isLive, bumpHit, List.find?]
  exact ⟨by norm_num, by norm_num, hh,
    lookup_hit_monotone_in_threshold _ _ _ _ _ _ _ _ _ (by norm_num)
      (by norm_num) hh⟩

/-! Claim C1. -/

/-- C1 (amended): every valid lookup that does not produce a hit still
carries, in its Miss result, the best (maximum) similarity over all
candidate entries of the index — including entries that have expired but
have not yet been reaped — attained by one of them, and carries similarity
0 exactly when the candidate set is empty; a caller needs no separate query
to learn the closest similarity on a miss. -/
theorem miss_carries_best_candidate_similarity
    (s : EngineState) (q : Vec) (t : ℚ) (tf : Option String) (now : ℕ) (b : ℚ)
    (hdim : q.length = s.dimension) (h0 : 0 ≤ t) (h1 : t ≤ 1)
    (hmiss : (lookup s q t tf now).1 = .ok (.miss b)) :
    (candidates s tf = [] ∧ b = 0) ∨
    ((∃ p ∈ candidates s tf, simSq q p.2 = b) ∧
      ∀ p ∈ candidates s tf, simSq q p.2 ≤ b) := by
  rw [lookup_eq_of_valid s q t tf now hdim h0 h1] at hmiss
  cases hb : best1 q (candidates s tf) with
  | none =>
      simp only [hb] at hmiss
      simp only [Except.ok.injEq, LookupResult.miss.injEq] at hmiss
      exact Or.inl ⟨(best1_eq_none_iff q _).mp hb, hmiss.symm⟩
  | some p =>
      obtain ⟨cid, bb⟩ := p
      simp only [hb] at hmiss
      have hbb : bb = b := by
        cases hf : findEntry s cid with
        | none => simp only [hf] at hmiss; simpa using hmiss
        | some e =>
            simp only [hf] at hmiss
            by_cases hcond : isLive now e = true ∧ bb ≥ t * t
            · rw [if_pos hcond] at hmiss; simp at hmiss
            · rw [if_neg hcond] at hmiss; simpa using hmiss
      obtain ⟨v, hv, hs⟩ := best1_mem q _ cid bb hb
      exact Or.inr ⟨⟨(cid, v), hv, hbb ▸ hs⟩,
        fun p hp => hbb ▸ best1_ub q _ cid bb hb p hp⟩

/-- C1 witness: one live entry `[1, 0]`, query `[0, 1]` at threshold 0.9:
the lookup is a Miss carrying 0, the attained maximum similarity over the
(orthogonal) candidate set. -/
theorem miss_carries_best_candidate_similarity_witness :
    ([0, 1] : Vec).length =
        ((write (mkEngine 2) "q" [1, 0] "a" 0 [] 0 false).2).dimension ∧
    (lookup (write (mkEngine 2) "q" [1, 0] "a" 0 [] 0 false).2
        [0, 1] (9 / 10) none 0).1 = .ok (.miss 0) ∧
    ((candidates (write (mkEngine 2) "q" [1, 0] "a" 0 [] 0 false).2 none = [] ∧
        (0 : ℚ) = 0) ∨
      ((∃ p ∈ candidates (write (mkEngine 2) "q" [1, 0] "a" 0 [] 0 false).2 none,
          simSq [0, 1] p.2 = 0) ∧
        ∀ p ∈ candidates (write (mkEngine 2) "q" [1, 0] "a" 0 [] 0 false).2 none,
          simSq [0, 1] p.2 ≤ 0)) := by
  have hmiss : (lookup (write (mkEngine 2) "q" [1, 0] "a" 0 [] 0 false).2
      [0, 1] (9 / 10) none 0).1 = .ok (.miss 0) := by
    norm_num [lookup, write, mkEngine, candidates, best1, simSq, dot, normSq,
      findEntry, isLive, bumpHit, List.find?]
  exact ⟨rfl, hmiss,
    miss_carries_best_candidate_similarity _ _ _ _ _ _ rfl (by norm_num)
      (by norm_num) hmiss⟩

/-- C1 counterexample: an entry written with `ttl = 1` at time 0 has
expired by time 5 but is still indexed (the reaper has not run); the lookup
at time 5 is a Miss carrying that expired entry's similarity 1, although
the cache holds no live entry — the claim's "maximum over all live
entries, 0 when none are live" is violated. -/
theorem miss_best_similarity_from_expired_entry :
    ((write (mkEngine 1) "q" [1] "a" 1 [] 0 false).2).store.map
        (isLive 5) = [false] ∧
    (lookup (write (mkEngine 1) "q" [1] "a" 1 [] 0 false).2
        [1] (1 / 2) none 5).1 = .ok (.miss 1) ∧
    (1 : ℚ) ≠ 0 := by
  refine ⟨?_, ?_, by norm_num⟩
  · norm_num [write, mkEngine, isLive]
  · norm_num [lookup, write, mkEngine, candidates, best1, simSq, dot, normSq,
      findEntry, isLive, bumpHit, List.find?]

/-! Claim C6. -/

/-- C6: after `clear_all()` the statistics snapshot reports
`total_entries = 0`, `total_hits = 0`, `total_misses = 0` (and hit rate 0),
and every subsequent valid lookup — in particular of any vector that was
cached before the clear — is a Miss (carrying similarity 0, the empty-index
best). -/
theorem clear_all_resets_stats_and_lookups_miss
    (s : EngineState) (v : Vec) (t : ℚ) (tf : Option String) (now : ℕ)
    (hdim : v.length = s.dimension) (h0 : 0 ≤ t) (h1 : t ≤ 1) :
    stats (clearAll s).2 = ⟨0, 0, 0, 0⟩ ∧
    (lookup (clearAll s).2 v t tf now).1 = .ok (.miss 0) := by
  constructor
  · simp [stats, clearAll]
  · rw [lookup_eq_of_valid (clearAll s).2 v t tf now hdim h0 h1]
    have hcand : candidates (clearAll s).2 tf = [] := by
      cases tf <;> simp [candidates, clearAll, findEntry]
    rw [hcand]
    simp [best1]

/-- C6 witness: cache `[1]`, clear, and look `[1]` up again: the statistics
are all zero and the lookup is a Miss with similarity 0. -/
theorem clear_all_resets_stats_and_lookups_miss_witness :
    stats (clearAll (write (mkEngine 1) "q" [1] "a" 0 [] 0 false).2).2 =
      ⟨0, 0, 0, 0⟩ ∧
    (lookup (clearAll (write (mkEngine 1) "q" [1] "a" 0 [] 0 false).2).2
        [1] (1 / 2) none 9).1 = .ok (.miss 0) :=
  clear_all_resets_stats_and_lookups_miss
    (write (mkEngine 1) "q" [1] "a" 0 [] 0 false).2 [1] (1 / 2) none 9 rfl
    (by norm_num) (by norm_num)

/-! Claim C7. -/

/-- C7: liveness is decided by the absolute expiration timestamp stored at
write time: the written entry's expiration is `now + ttl_seconds`, absent
when `ttl_seconds ≤ 0` — and an absent timestamp means the entry is live at
every time; moreover a lookup that resolves its candidate only to an
expired entry returns a successful Miss (carrying the observed similarity),
never an error. -/
theorem ttl_expiry_semantics
    (s : EngineState) (text pay : String) (v : Vec) (ttl : Int)
    (tags : List String) (now : ℕ)
    (hdim : v.length = s.dimension) :
    ((write s text v pay ttl tags now false).2.store.head?.map
        (fun e => e.expiresAt)) =
      some (if ttl ≤ 0 then none else some (now + ttl.toNat)) ∧
    (ttl ≤ 0 → ∀ n, ((write s text v pay ttl tags now false).2.store.head?.map
        (fun e => isLive n e)) = some true) ∧
    (∀ (q : Vec) (t : ℚ) (tf : Option String) (now2 : ℕ) (cid : ℕ) (b : ℚ)
        (e : CacheEntry),
      q.length = s.dimension → 0 ≤ t → t ≤ 1 →
      best1 q (candidates s tf) = some (cid, b) →
      findEntry s cid = some e → isLive now2 e = false →
      (lookup s q t tf now2).1 = .ok (.miss b)) := by
  have hw := write_ok s text v pay ttl tags now hdim
  refine ⟨by rw [hw]; rfl, ?_, ?_⟩
  · intro httl n
    rw [hw]
    simp [isLive, httl]
  · intro q t tf now2 cid b e hq h0 h1 hb hf hdead
    rw [lookup_eq_of_valid s q t tf now2 hq h0 h1]
    simp only [hb, hf]
    have hnc : ¬ (isLive now2 e = true ∧ b ≥ t * t) := by
      rintro ⟨hc, -⟩
      rw [hdead] at hc
      exact Bool.false_ne_true hc
    rw [if_neg hnc]

/-- C7 witness: an entry written with `ttl = 1` at time 0 expires at
absolute time 1; a `ttl = 0` write never expires (live at time 7); and at
time 5 the lookup resolving only to the expired entry is a successful Miss
carrying its similarity. -/
theorem ttl_expiry_semantics_witness :
    ((write (write (mkEngine 1) "q" [1] "a" 1 [] 0 false).2
        "t" [2] "a2" 0 [] 9 false).2.store.head?.map
        (fun e => e.expiresAt)) = some none ∧
    ((write (write (mkEngine 1) "q" [1] "a" 1 [] 0 false).2
        "t" [2] "a2" 0 [] 9 false).2.store.head?.map
        (fun e => isLive 7 e)) = some true ∧
    (lookup (write (mkEngine 1) "q" [1] "a" 1 [] 0 false).2
        [1] (1 / 2) none 5).1 = .ok (.miss 1) := by
  have h := ttl_expiry_semantics ((write (mkEngine 1) "q" [1] "a" 1 [] 0 false).2)
    "t" "a2" [2] 0 [] 9 rfl
  refine ⟨by simpa using h.1, h.2.1 (by norm_num) 7, ?_⟩
  exact h.2.2 [1] (1 / 2) none 5 0 1 ⟨0, [1], "q", "a", 0, some 1, [], 0⟩ rfl
    (by norm_num) (by norm_num)
    (by norm_num [candidates, best1, simSq, dot, normSq, write, mkEngine])
    (by norm_num [findEntry, write, mkEngine, List.find?])
    (by simp [isLive])

/-! Claim C8. -/

/-- C8: writing a vector whose length differs from the configured dimension
fails with `DimensionMismatch` and the visible cache state is exactly the
prior state — no entry is added and the statistics (total_entries,
total_hits, total_misses) keep their prior values. -/
theorem write_dimension_mismatch_unchanged
    (s : EngineState) (text pay : String) (v : Vec) (ttl : Int)
    (tags : List String) (now : ℕ) (fault : Bool)
    (hdim : v.length ≠ s.dimension) :
    write s text v pay ttl tags now fault = (.error .dimensionMismatch, s) ∧
    stats (write s text v pay ttl tags now fault).2 = stats s := by
  have h : write s text v pay ttl tags now fault =
      (.error .dimensionMismatch, s) := by
    unfold write
    rw [if_pos hdim]
  exact ⟨h, by rw [h]⟩

/-- C8 witness: a 3-component vector written to a dimension-2 engine (with
one cached entry) fails with `DimensionMismatch` and leaves the state and
statistics untouched. -/
theorem write_dimension_mismatch_unchanged_witness :
    write (write (mkEngine 2) "q" [1, 2] "a" 0 [] 0 false).2
        "t" [1, 2, 3] "b" 5 [] 3 false =
      (.error .dimensionMismatch, (write (mkEngine 2) "q" [1, 2] "a" 0 [] 0 false).2) ∧
    stats (write (write (mkEngine 2) "q" [1, 2] "a" 0 [] 0 false).2
        "t" [1, 2, 3] "b" 5 [] 3 false).2 =
      stats (write (mkEngine 2) "q" [1, 2] "a" 0 [] 0 false).2 :=
  write_dimension_mismatch_unchanged _ "t" "b" [1, 2, 3] 5 [] 3 false
    (by norm_num [write, mkEngine])

/-! Lookups never alter the set of cached entries: only hit counters and
hit/miss statistics move. -/

/-- The identity-relevant core of an entry: everything except the mutable
hit counter. -/
def entryCore (e : CacheEntry) :
    ℕ × Vec × String × String × ℕ × Option ℕ × List String :=
  (e.id, e.embedding, e.queryText, e.payload, e.createdAt, e.expiresAt, e.tags)

theorem bumpHit_core (l : List CacheEntry) (id : ℕ) :
    (bumpHit l id).map entryCore = l.map entryCore := by
  induction l with
  | nil => rfl
  | cons e rest ih =>
      simp only [bumpHit, List.map_cons] at ih ⊢
      by_cases h : e.id = id
      · rw [if_pos h, ih]
        rfl
      · rw [if_neg h, ih]

theorem lookup_preserves_entries (s : EngineState) (q : Vec) (t : ℚ)
    (tf : Option String) (now : ℕ) :
    (lookup s q t tf now).2.index = s.index ∧
    (lookup s q t tf now).2.store.map entryCore = s.store.map entryCore ∧
    (lookup s q t tf now).2.totalEntries = s.totalEntries := by
  unfold lookup
  by_cases h1 : q.length ≠ s.dimension
  · rw [if_pos h1]
    exact ⟨rfl, rfl, rfl⟩
  · rw [if_neg h1]
    by_cases h2 : t < 0 ∨ 1 < t
    · rw [if_pos h2]
      exact ⟨rfl, rfl, rfl⟩
    · rw [if_neg h2]
      cases hb : best1 q (candidates s tf) with
      | none =>
          simp only [hb]
          exact ⟨trivial, trivial, trivial⟩
      | some p =>
          obtain ⟨cid, b⟩ := p
          simp only [hb]
          cases hf : findEntry s cid with
          | none =>
              simp only [hf]
              exact ⟨trivial, trivial, trivial⟩
          | some e =>
              simp only [hf]
              by_cases hc : isLive now e = true ∧ b ≥ t * t
              · rw [if_pos hc]
                exact ⟨rfl, bumpHit_core s.store cid, rfl⟩
              · rw [if_neg hc]
                exact ⟨rfl, rfl, rfl⟩

/-! Claim C4. -/

/-- C4: normalization of the query text happens in the caller, not the
engine: both demos' `get_embedding` send the provider the lowercased,
whitespace-stripped text, and on the miss path the demo stores the raw
(unnormalized) question via `cache_query`. -/
theorem demo_normalizes_embedding_and_stores_raw_text
    (provider : String → Vec) (llm : String → Option String) (q : String)
    (s : EngineState) (now : ℕ) :
    get_embedding provider q = provider (q.toLower.trim) ∧
    (processQuestion provider llm q s now).sentToProvider = q.toLower.trim ∧
    (∀ (b : ℚ) (s1 : EngineState),
      lookup s (get_embedding provider q) SIMILARITY_THRESHOLD none now =
        (.ok (.miss b), s1) →
      (processQuestion provider llm q s now).cachedWrite =
        some (q, get_embedding provider q, generate_answer llm q, 3600, [])) := by
  refine ⟨rfl, ?_, ?_⟩
  · unfold processQuestion
    rcases h : lookup s (get_embedding provider q) SIMILARITY_THRESHOLD none now
      with ⟨r, s1⟩
    cases r with
    | error e => rfl
    | ok lr => cases lr with
      | hit cid sim pay => rfl
      | miss b => rfl
  · intro b s1 h
    unfold processQuestion
    rw [h]

/-- C4 witness: a provider that returns `[1]` and an echoing LLM; the
embedding call receives the normalized text, and the miss-path write stores
the raw question. -/
theorem demo_normalizes_embedding_and_stores_raw_text_witness :
    get_embedding (fun _ => [(1 : ℚ)]) "What Is AI?" =
      (fun _ => [(1 : ℚ)]) ("What Is AI?".toLower.trim) ∧
    (processQuestion (fun _ => [(1 : ℚ)]) (fun t => some t) "What Is AI?"
        (mkEngine 1) 0).sentToProvider = "What Is AI?".toLower.trim ∧
    (processQuestion (fun _ => [(1 : ℚ)]) (fun t => some t) "What Is AI?"
        (mkEngine 1) 0).cachedWrite =
      some ("What Is AI?", get_embedding (fun _ => [(1 : ℚ)]) "What Is AI?",
        generate_answer (fun t => some t) "What Is AI?", 3600, []) := by
  have h := demo_normalizes_embedding_and_stores_raw_text
    (fun _ => [(1 : ℚ)]) (fun t => some t) "What Is AI?" (mkEngine 1) 0
  have hm : lookup (mkEngine 1)
      (get_embedding (fun _ => [(1 : ℚ)]) "What Is AI?")
      SIMILARITY_THRESHOLD none 0 = (.ok (.miss 0), ⟨1, [], [], 0, 0, 0, 1⟩) := by
    norm_num [lookup, mkEngine, candidates, best1, get_embedding,
      SIMILARITY_THRESHOLD]
  exact ⟨h.1, h.2.1, h.2.2 0 ⟨1, [], [], 0, 0, 0, 1⟩ hm⟩

/-! Claim C9. -/

/-- C9: the demo loop writes only on the miss branch: whenever
`get_cached_result` reports found, the iteration performs no `cache_query`
call and leaves the cached entries (ids, embeddings, texts, payloads,
expirations, tags), the index and the entry count unchanged — only hit
counters may move. -/
theorem demo_hit_writes_nothing
    (provider : String → Vec) (llm : String → Option String) (q : String)
    (s : EngineState) (now : ℕ)
    (hfound : (processQuestion provider llm q s now).found = true) :
    (processQuestion provider llm q s now).cachedWrite = none ∧
    (processQuestion provider llm q s now).state.index = s.index ∧
    (processQuestion provider llm q s now).state.store.map entryCore =
      s.store.map entryCore ∧
    (processQuestion provider llm q s now).state.totalEntries = s.totalEntries := by
  have hpres := lookup_preserves_entries s (get_embedding provider q)
    SIMILARITY_THRESHOLD none now
  rcases h : lookup s (get_embedding provider q) SIMILARITY_THRESHOLD none now
    with ⟨r, s1⟩
  rw [h] at hpres
  unfold processQuestion at hfound ⊢
  rw [h] at hfound ⊢
  cases r with
  | error e => simp at hfound
  | ok lr => cases lr with
    | miss b => simp at hfound
    | hit cid sim pay =>
        exact ⟨rfl, hpres.1, hpres.2.1, hpres.2.2⟩

/-- C9 witness: with `[1]` cached and a provider returning `[1]`, the demo
iteration is a hit and performs no write, leaving entries, index and entry
count unchanged. -/
theorem demo_hit_writes_nothing_witness :
    (processQuestion (fun _ => [(1 : ℚ)]) (fun t => some t) "Q2"
        (write (mkEngine 1) "q" [1] "a" 0 [] 0 false).2 0).found = true ∧
    ((processQuestion (fun _ => [(1 : ℚ)]) (fun t => some t) "Q2"
        (write (mkEngine 1) "q" [1] "a" 0 [] 0 false).2 0).cachedWrite = none ∧
      (processQuestion (fun _ => [(1 : ℚ)]) (fun t => some t) "Q2"
        (write (mkEngine 1) "q" [1] "a" 0 [] 0 false).2 0).state.index =
        ((write (mkEngine 1) "q" [1] "a" 0 [] 0 false).2).index ∧
      (processQuestion (fun _ => [(1 : ℚ)]) (fun t => some t) "Q2"
        (write (mkEngine 1) "q" [1] "a" 0 [] 0 false).2 0).state.store.map entryCore =
        ((write (mkEngine 1) "q" [1] "a" 0 [] 0 false).2).store.map entryCore ∧
      (processQuestion (fun _ => [(1 : ℚ)]) (fun t => some t) "Q2"
        (write (mkEngine 1) "q" [1] "a" 0 [] 0 false).2 0).state.totalEntries =
        ((write (mkEngine 1) "q" [1] "a" 0 [] 0 false).2).totalEntries) := by
  have hf : (processQuestion (fun _ => [(1 : ℚ)]) (fun t => some t) "Q2"
      (write (mkEngine 1) "q" [1] "a" 0 [] 0 false).2 0).found = true := by
    norm_num [processQuestion, get_embedding, lookup, write, mkEngine,
      candidates, best1, simSq, dot, normSq, findEntry, isLive, bumpHit,
      List.find?, SIMILARITY_THRESHOLD]
  exact ⟨hf, demo_hit_writes_nothing _ _ _ _ _ hf⟩

/-! Claim C10. -/

/-- C10: on the miss path, when the LLM call raises (modelled as `none`),
`generate_answer` returns the fallback string
"I don\x27t have a cached answer for: {question}" instead of propagating
the error, and the demo caches that fallback via `cache_query` with
`ttl_seconds = 3600` and no tags, exactly as it would a real answer. -/
theorem llm_failure_fallback_cached
    (provider : String → Vec) (llm : String → Option String) (q : String)
    (s : EngineState) (now : ℕ) (b : ℚ) (s1 : EngineState)
    (hllm : llm q = none)
    (hmiss : lookup s (get_embedding provider q) SIMILARITY_THRESHOLD none now =
      (.ok (.miss b), s1)) :
    generate_answer llm q = "I don\x27t have a cached answer for: " ++ q ∧
    (processQuestion provider llm q s now).cachedWrite =
      some (q, get_embedding provider q,
        "I don\x27t have a cached answer for: " ++ q, 3600, []) ∧
    (processQuestion provider llm q s now).state =
      (write s1 q (get_embedding provider q)
        ("I don\x27t have a cached answer for: " ++ q) 3600 [] now false).2 := by
  have hga : generate_answer llm q =
      "I don\x27t have a cached answer for: " ++ q := by
    simp [generate_answer, hllm]
  refine ⟨hga, ?_, ?_⟩
  · unfold processQuestion
    rw [hmiss]
    show some (q, get_embedding provider q, generate_answer llm q, 3600,
        ([] : List String)) =
      some (q, get_embedding provider q,
        "I don\x27t have a cached answer for: " ++ q, 3600, [])
    rw [hga]
  · unfold processQuestion
    rw [hmiss]
    show (write s1 q (get_embedding provider q) (generate_answer llm q)
        3600 [] now false).2 =
      (write s1 q (get_embedding provider q)
        ("I don\x27t have a cached answer for: " ++ q) 3600 [] now false).2
    rw [hga]

/-- C10 witness: empty cache, failing LLM: the demo iteration misses,
produces the fallback answer and caches it with ttl 3600 and no tags. -/
theorem llm_failure_fallback_cached_witness :
    generate_answer (fun _ => none) "Qx" =
      "I don\x27t have a cached answer for: " ++ "Qx" ∧
    (processQuestion (fun _ => [(1 : ℚ)]) (fun _ => none) "Qx"
        (mkEngine 1) 0).cachedWrite =
      some ("Qx", get_embedding (fun _ => [(1 : ℚ)]) "Qx",
        "I don\x27t have a cached answer for: " ++ "Qx", 3600, []) ∧
    (processQuestion (fun _ => [(1 : ℚ)]) (fun _ => none) "Qx"
        (mkEngine 1) 0).state =
      (write ⟨1, [], [], 0, 0, 0, 1⟩ "Qx"
        (get_embedding (fun _ => [(1 : ℚ)]) "Qx")
        ("I don\x27t have a cached answer for: " ++ "Qx") 3600 [] 0 false).2 := by
  have hm : lookup (mkEngine 1) (get_embedding (fun _ => [(1 : ℚ)]) "Qx")
      SIMILARITY_THRESHOLD none 0 = (.ok (.miss 0), ⟨1, [], [], 0, 0, 0, 1⟩) := by
    norm_num [lookup, mkEngine, candidates, best1, get_embedding,
      SIMILARITY_THRESHOLD]
  exact llm_failure_fallback_cached (fun _ => [(1 : ℚ)]) (fun _ => none) "Qx"
    (mkEngine 1) 0 0 ⟨1, [], [], 0, 0, 0, 1⟩ rfl hm

/-! Structural invariant of the engine: the VectorIndex and the EntryStore
stay coherent (same ids, matching vectors), ids are unique, and the id
allocator is fresh. -/

/-- Well-formedness of an engine state: every indexed id resolves to a
stored entry with the indexed vector, every stored entry is indexed, stored
ids are pairwise distinct, and all ids are below the allocator. -/
def WF (s : EngineState) : Prop :=
  (∀ p ∈ s.index, ∃ e ∈ s.store, e.id = p.1 ∧ e.embedding = p.2) ∧
  (∀ e ∈ s.store, (e.id, e.embedding) ∈ s.index) ∧
  (s.store.map (fun e => e.id)).Nodup ∧
  (∀ e ∈ s.store, e.id < s.nextId)

theorem wf_mkEngine (d : ℕ) : WF (mkEngine d) := by
  refine ⟨?_, ?_, ?_, ?_⟩ <;> simp [mkEngine]

/-- A successful `find?` by id returns a member carrying that id. -/
theorem find_id_spec (cid : ℕ) (e : CacheEntry) :
    ∀ l : List CacheEntry,
      l.find? (fun x => x.id = cid) = some e → e ∈ l ∧ e.id = cid := by
  intro l
  induction l with
  | nil => intro h; simp at h
  | cons a rest ih =>
      intro h
      by_cases hc : a.id = cid
      · rw [List.find?_cons_of_pos _ (by simpa using hc)] at h
        obtain rfl : a = e := by injection h
        exact ⟨List.mem_cons_self _ _, hc⟩
      · rw [List.find?_cons_of_neg _ (by simpa using hc)] at h
        obtain ⟨hm, hi⟩ := ih h
        exact ⟨List.mem_cons_of_mem _ hm, hi⟩

theorem removeFromStore_cons_fresh (n : ℕ) (entry : CacheEntry)
    (l : List CacheEntry) (hid : entry.id = n) (hfresh : ∀ e ∈ l, e.id ≠ n) :
    removeFromStore (entry :: l) n = l := by
  unfold removeFromStore
  rw [List.filter_cons_of_neg (by simp [hid])]
  apply List.filter_eq_self.mpr
  intro a ha
  simpa using hfresh a ha

theorem wf_write (s : EngineState) (hwf : WF s) (text : String) (emb : Vec)
    (pay : String) (ttl : Int) (tags : List String) (now : ℕ) (fault : Bool) :
    WF (write s text emb pay ttl tags now fault).2 := by
  obtain ⟨hfwd, hbwd, hnd, hfr⟩ := hwf
  unfold write
  by_cases hdim : emb.length ≠ s.dimension
  · rw [if_pos hdim]
    exact ⟨hfwd, hbwd, hnd, hfr⟩
  · rw [if_neg hdim]
    by_cases hft : fault = true
    · rw [if_pos hft]
      have hro := removeFromStore_cons_fresh s.nextId
        ⟨s.nextId, emb, text, pay, now,
          if ttl ≤ 0 then none else some (now + ttl.toNat), tags, 0⟩
        s.store rfl (fun e he => Nat.ne_of_lt (hfr e he))
      rw [hro]
      exact ⟨hfwd, hbwd, hnd, hfr⟩
    · rw [if_neg hft]
      refine ⟨?_, ?_, ?_, ?_⟩
      · intro p hp
        rcases List.mem_cons.mp hp with rfl | hmem
        · exact ⟨⟨s.nextId, emb, text, pay, now,
            if ttl ≤ 0 then none else some (now + ttl.toNat), tags, 0⟩,
            List.mem_cons_self _ _, rfl, rfl⟩
        · obtain ⟨e, he, h1, h2⟩ := hfwd p hmem
          exact ⟨e, List.mem_cons_of_mem _ he, h1, h2⟩
      · intro e he
        rcases List.mem_cons.mp he with rfl | hmem
        · exact List.mem_cons_self _ _
        · exact List.mem_cons_of_mem _ (hbwd e hmem)
      · rw [List.map_cons]
        refine List.nodup_cons.mpr ⟨?_, hnd⟩
        intro hmem
        obtain ⟨e, he, heq⟩ := List.mem_map.mp hmem
        exact absurd heq (Nat.ne_of_lt (hfr e he))
      · intro e he
        rcases List.mem_cons.mp he with rfl | hmem
        · exact Nat.lt_succ_self _
        · exact Nat.lt_succ_of_lt (hfr e hmem)

theorem mem_bumpHit_of_mem (l : List CacheEntry) (cid : ℕ) (e : CacheEntry)
    (he : e ∈ l) :
    ∃ e2 ∈ bumpHit l cid, e2.id = e.id ∧ e2.embedding = e.embedding := by
  by_cases h : e.id = cid
  · exact ⟨{ e with hitCount := e.hitCount + 1 },
      List.mem_map.mpr ⟨e, he, by rw [if_pos h]⟩, rfl, rfl⟩
  · exact ⟨e, List.mem_map.mpr ⟨e, he, by rw [if_neg h]⟩, rfl, rfl⟩

theorem mem_bumpHit (l : List CacheEntry) (cid : ℕ) (e2 : CacheEntry)
    (h : e2 ∈ bumpHit l cid) :
    ∃ e ∈ l, e2.id = e.id ∧ e2.embedding = e.embedding := by
  obtain ⟨e, he, hfe⟩ := List.mem_map.mp h
  by_cases hid : e.id = cid
  · rw [if_pos hid] at hfe
    subst hfe
    exact ⟨e, he, rfl, rfl⟩
  · rw [if_neg hid] at hfe
    subst hfe
    exact ⟨e, he, rfl, rfl⟩

theorem bumpHit_ids (l : List CacheEntry) (cid : ℕ) :
    (bumpHit l cid).map (fun e => e.id) = l.map (fun e => e.id) := by
  induction l with
  | nil => rfl
  | cons e rest ih =>
      simp only [bumpHit, List.map_cons] at ih ⊢
      by_cases h : e.id = cid
      · rw [if_pos h, ih]
      · rw [if_neg h, ih]

theorem wf_lookup (s : EngineState) (hwf : WF s) (q : Vec) (t : ℚ)
    (tf : Option String) (now : ℕ) : WF (lookup s q t tf now).2 := by
  obtain ⟨hfwd, hbwd, hnd, hfr⟩ := hwf
  unfold lookup
  by_cases h1 : q.length ≠ s.dimension
  · rw [if_pos h1]
    exact ⟨hfwd, hbwd, hnd, hfr⟩
  · rw [if_neg h1]
    by_cases h2 : t < 0 ∨ 1 < t
    · rw [if_pos h2]
      exact ⟨hfwd, hbwd, hnd, hfr⟩
    · rw [if_neg h2]
      cases hb : best1 q (candidates s tf) with
      | none =>
          simp only [hb]
          exact ⟨hfwd, hbwd, hnd, hfr⟩
      | some p =>
          obtain ⟨cid, b⟩ := p
          simp only [hb]
          cases hf : findEntry s cid with
          | none =>
              simp only [hf]
              exact ⟨hfwd, hbwd, hnd, hfr⟩
          | some e =>
              simp only [hf]
              by_cases hc : isLive now e = true ∧ b ≥ t * t
              · rw [if_pos hc]
                refine ⟨?_, ?_, ?_, ?_⟩
                · intro p hp
                  obtain ⟨e2, he2, hi, hv⟩ := hfwd p hp
                  obtain ⟨e3, he3, hi3, hv3⟩ := mem_bumpHit_of_mem s.store cid e2 he2
                  exact ⟨e3, he3, hi3.trans hi, hv3.trans hv⟩
                · intro e2 he2
                  obtain ⟨e3, he3, hi3, hv3⟩ := mem_bumpHit s.store cid e2 he2
                  rw [hi3, hv3]
                  exact hbwd e3 he3
                · rw [bumpHit_ids]
                  exact hnd
                · intro e2 he2
                  obtain ⟨e3, he3, hi3, -⟩ := mem_bumpHit s.store cid e2 he2
                  rw [hi3]
                  exact hfr e3 he3
              · rw [if_neg hc]
                exact ⟨hfwd, hbwd, hnd, hfr⟩

theorem wf_removeWhere (s : EngineState) (hwf : WF s)
    (cond : CacheEntry → Bool) : WF (removeWhere s cond).2 := by
  obtain ⟨hfwd, hbwd, hnd, hfr⟩ := hwf
  unfold removeWhere
  refine ⟨?_, ?_, ?_, ?_⟩
  · intro p hp
    have hp2 := List.mem_filter.mp hp
    obtain ⟨e, he, h1, h2⟩ := hfwd p hp2.1
    have hnotd : p.1 ∉ (s.store.filter cond).map (fun e => e.id) :=
      of_decide_eq_true hp2.2
    refine ⟨e, List.mem_filter.mpr ⟨he, ?_⟩, h1, h2⟩
    cases hce : cond e with
    | false => rfl
    | true =>
        exact absurd (List.mem_map.mpr ⟨e, List.mem_filter.mpr ⟨he, hce⟩, h1⟩)
          hnotd
  · intro e he
    have he2 := List.mem_filter.mp he
    have hkeep : cond e = false := by simpa using he2.2
    refine List.mem_filter.mpr ⟨hbwd e he2.1, ?_⟩
    apply decide_eq_true
    intro hmem
    obtain ⟨e2, he2x, hid⟩ := List.mem_map.mp hmem
    have he2y := List.mem_filter.mp he2x
    have heq : e2 = e := List.inj_on_of_nodup_map hnd he2y.1 he2.1 hid
    rw [heq] at he2y
    rw [he2y.2] at hkeep
    exact Bool.noConfusion hkeep
  · exact hnd.sublist ((List.filter_sublist _).map _)
  · intro e he
    exact hfr e (List.mem_filter.mp he).1

theorem wf_clearAll (s : EngineState) : WF (clearAll s).2 := by
  refine ⟨?_, ?_, ?_, ?_⟩ <;> simp [clearAll]

/-- Every reachable state is well-formed. -/
theorem reachable_wf (s : EngineState) (h : Reachable s) : WF s := by
  induction h with
  | init d => exact wf_mkEngine d
  | write h q emb p ttl tags now fault ih =>
      exact wf_write _ ih q emb p ttl tags now fault
  | lookup h q t tf now ih => exact wf_lookup _ ih q t tf now
  | invalidateTag h tag ih =>
      exact wf_removeWhere _ ih (fun e => e.tags.contains tag)
  | clearAll h ih => exact wf_clearAll _
  | reap h now ih => exact wf_removeWhere _ ih (fun e => !(isLive now e))

/-! Claim C5. -/

/-- C5: in every state reachable by any sequence of write (including
writes whose index insert fails and is rolled back), lookup,
invalidate_tag, clear_all and reaper operations, every id in the
VectorIndex resolves to an entry of the EntryStore holding the indexed
vector and vice versa — no orphaned or dangling entry is ever visible —
and every id a successful lookup returns as a Hit resolves to a live
(non-expired) entry carrying the returned payload. -/
theorem index_store_coherent_and_hits_live (s : EngineState)
    (hreach : Reachable s) :
    (∀ p ∈ s.index, ∃ e ∈ s.store, e.id = p.1 ∧ e.embedding = p.2) ∧
    (∀ e ∈ s.store, (e.id, e.embedding) ∈ s.index) ∧
    (∀ (q : Vec) (t : ℚ) (tf : Option String) (now : ℕ) (id : ℕ) (sim : ℚ)
        (pay : String),
      (lookup s q t tf now).1 = .ok (.hit id sim pay) →
      ∃ e ∈ s.store, e.id = id ∧ isLive now e = true ∧ e.payload = pay) := by
  have hwf := reachable_wf s hreach
  refine ⟨hwf.1, hwf.2.1, ?_⟩
  intro q t tf now id sim pay hhit
  by_cases hdim : q.length = s.dimension
  case neg =>
    unfold lookup at hhit
    rw [if_pos hdim] at hhit
    simp at hhit
  by_cases ht : t < 0 ∨ 1 < t
  case pos =>
    unfold lookup at hhit
    rw [if_neg (not_not_intro hdim), if_pos ht] at hhit
    simp at hhit
  have h0 : 0 ≤ t := le_of_not_lt (fun hc => ht (Or.inl hc))
  have h1 : t ≤ 1 := le_of_not_lt (fun hc => ht (Or.inr hc))
  rw [lookup_eq_of_valid s q t tf now hdim h0 h1] at hhit
  cases hb : best1 q (candidates s tf) with
  | none => simp only [hb] at hhit; simp at hhit
  | some p =>
      obtain ⟨cid, b⟩ := p
      simp only [hb] at hhit
      cases hf : findEntry s cid with
      | none => simp only [hf] at hhit; simp at hhit
      | some e =>
          simp only [hf] at hhit
          by_cases hc : isLive now e = true ∧ b ≥ t * t
          · rw [if_pos hc] at hhit
            simp only [Except.ok.injEq, LookupResult.hit.injEq] at hhit
            obtain ⟨hmem, hid⟩ := find_id_spec cid e s.store hf
            exact ⟨e, hmem, hid.trans hhit.1, hc.1, hhit.2.2⟩
          · rw [if_neg hc] at hhit
            simp at hhit

/-- C5 witness: the state with `[1]` cached is reachable; its index and
store are coherent, and the concrete hit of `[1]` at threshold 1 resolves
to a live stored entry with payload "a". -/
theorem index_store_coherent_and_hits_live_witness :
    (∀ p ∈ ((write (mkEngine 1) "q" [1] "a" 0 [] 0 false).2).index,
      ∃ e ∈ ((write (mkEngine 1) "q" [1] "a" 0 [] 0 false).2).store,
        e.id = p.1 ∧ e.embedding = p.2) ∧
    (∀ e ∈ ((write (mkEngine 1) "q" [1] "a" 0 [] 0 false).2).store,
      (e.id, e.embedding) ∈ ((write (mkEngine 1) "q" [1] "a" 0 [] 0 false).2).index) ∧
    (∃ e ∈ ((write (mkEngine 1) "q" [1] "a" 0 [] 0 false).2).store,
      e.id = 0 ∧ isLive 0 e = true ∧ e.payload = "a") := by
  have hr : Reachable (write (mkEngine 1) "q" [1] "a" 0 [] 0 false).2 :=
    Reachable.write (Reachable.init 1) "q" [1] "a" 0 [] 0 false
  have h := index_store_coherent_and_hits_live _ hr
  have hh : (lookup (write (mkEngine 1) "q" [1] "a" 0 [] 0 false).2
      [1] 1 none 0).1 = .ok (.hit 0 1 "a") := by
    norm_num [lookup, write, mkEngine, candidates, best1, simSq, dot, normSq,
      findEntry, isLive, bumpHit, List.find?]
  exact ⟨h.1, h.2.1, h.2.2 [1] 1 none 0 0 1 "a" hh⟩

end SemanticCache
